import Mathlib

/-!
# Verification of the federated search / retrieval-metrics / evaluation-store core

Shallow embedding of the `backend/evaluation` core of the repository:

* `routers/retrieval_eval.py` — hit rate, MRR, NDCG@k (`compute_hit_rate`,
  `compute_mrr`, `compute_ndcg` below);
* `routers/search.py` — the broad all-namespaces orchestrator
  (`search_investigate`) and the decomposed advanced orchestrator
  (`search_advanced`);
* `services/query_decomposer.py` — `decompose_query`;
* `services/trulens_evaluator.py` — `evaluate_rag`, `get_evaluations`,
  `get_aggregate_metrics`.

Python floats are modelled as `ℝ` where a logarithm is involved and as `ℚ`
elsewhere; Python's stable `sorted(..., reverse=True)` is modelled by
Mathlib's stable `List.insertionSort` with the non-strict descending
comparator; backend and LLM collaborators are parameters returning
`Except`-values.
-/

/-! ## Retrieval metrics (`routers/retrieval_eval.py`) -/

/-- `_compute_hit_rate(retrieved_ids, relevant_ids)`: fraction of relevant
docs found in the retrieved set; `0.0` when either list is empty. -/
def compute_hit_rate (retrieved_ids relevant_ids : List String) : ℚ :=
  if relevant_ids = [] then 0
  else if retrieved_ids = [] then 0
  else (relevant_ids.countP (fun rid => decide (rid ∈ retrieved_ids)) : ℚ) /
    relevant_ids.length

/-- `_compute_mrr(retrieved_ids, relevant_ids)`: reciprocal of the 1-indexed
rank of the first relevant retrieved id; `0.0` when there is none or an input
is empty. -/
def compute_mrr (retrieved_ids relevant_ids : List String) : ℚ :=
  if retrieved_ids = [] ∨ relevant_ids = [] then 0
  else
    match retrieved_ids.findIdx? (fun rid => decide (rid ∈ relevant_ids)) with
    | some i => 1 / ((i : ℚ) + 1)
    | none => 0

/-- `_compute_ndcg(retrieved_ids, relevant_ids, k)`: binary-relevance NDCG@k.
The `for i in range(limit)` DCG loop adds `1/log2(i+2)` whenever the `i`-th
(0-indexed) retrieved id is in the relevant set; the IDCG loop adds
`1/log2(i+2)` for `i < min(k, len(relevant_ids))`. -/
noncomputable def compute_ndcg (retrieved_ids relevant_ids : List String) (k : ℕ) : ℝ :=
  if retrieved_ids = [] ∨ relevant_ids = [] then 0
  else
    let limit := min k retrieved_ids.length
    let dcg : ℝ := ∑ i ∈ Finset.range limit,
      if retrieved_ids.getD i "" ∈ relevant_ids then 1 / Real.logb 2 ((i : ℝ) + 2) else 0
    let ideal_count := min k relevant_ids.length
    let idcg : ℝ := ∑ i ∈ Finset.range ideal_count, 1 / Real.logb 2 ((i : ℝ) + 2)
    if idcg = 0 then 0 else dcg / idcg

/-- The NDCG@k formula exactly as §4.4 of the specification words it
(1-indexed): `DCG = Σ_{i=1..min(k,|retrieved|)} rel(i)/log2(i+1)` with
`rel(i) = 1` iff the `i`-th retrieved id is relevant,
`IDCG = Σ_{i=1..min(k,|relevant|)} 1/log2(i+1)`, `NDCG = DCG/IDCG`, and `0.0`
when `IDCG = 0`. -/
noncomputable def spec_ndcg (retrieved_ids relevant_ids : List String) (k : ℕ) : ℝ :=
  let dcg : ℝ := ∑ i ∈ Finset.Icc 1 (min k retrieved_ids.length),
    (if retrieved_ids.getD (i - 1) "" ∈ relevant_ids then (1 : ℝ) else 0) /
      Real.logb 2 ((i : ℝ) + 1)
  let idcg : ℝ := ∑ i ∈ Finset.Icc 1 (min k relevant_ids.length),
    1 / Real.logb 2 ((i : ℝ) + 1)
  if idcg = 0 then 0 else dcg / idcg

/-- The discount weight `1/log2(i+2)` applied to 0-indexed position `i`. -/
noncomputable def discountWeight (i : ℕ) : ℝ := 1 / Real.logb 2 ((i : ℝ) + 2)

/-! ## Search orchestrators (`routers/search.py`) -/

/-- One retrieved item as handled by the search router: the dict
`{"id", "text", "score", "metadata"}` produced by the Pinecone service. -/
structure Hit where
  id : String
  text : String
  score : ℚ
  metadata : List (String × String)
deriving DecidableEq

/-- Python dict assignment `h["metadata"][k] = v`: update an existing key in
place, otherwise append the new binding at the end. -/
def setMeta (m : List (String × String)) (k v : String) : List (String × String) :=
  if m.any (fun p => p.1 == k) then m.map (fun p => if p.1 == k then (k, v) else p)
  else m ++ [(k, v)]

/-- The fixed namespace fan-out order used by both orchestration variants. -/
def namespacesList : List String :=
  ["fraud-cases", "onboarding-knowledge", "risk-patterns", "investigations"]

/-- The backend collaborator `svc.search(namespace, query, top_k, rerank)`:
returns ranked hits, or raises — modelled as `Except.error`. -/
abbrev SearchFn : Type := String → String → ℕ → Bool → Except String (List Hit)

/-- Python's stable `all_results.sort(key=lambda x: x["score"], reverse=True)`:
a stable sort that orders by score descending and keeps equal-score elements
in their original order, modelled by insertion sort with the non-strict
descending comparator. -/
def pySortByScoreDesc (l : List Hit) : List Hit :=
  l.insertionSort (fun a b => b.score ≤ a.score)

/-- `search_investigate` (UC4): search every namespace with the one query
(`rerank=True`), annotate each hit's metadata with its namespace, collect
all hits, sort by score descending, truncate to `top_k`. There is NO
try/except around the backend call: a fault propagates. -/
def search_investigate (svc : SearchFn) (query : String) (top_k : ℕ) :
    Except String (List Hit) := do
  let all_results ← namespacesList.foldlM
    (fun (acc : List Hit) ns => do
      let hits ← svc ns query top_k true
      pure (acc ++ hits.map
        (fun h => { h with metadata := setMeta h.metadata "namespace" ns })))
    []
  pure ((pySortByScoreDesc all_results).take top_k)

/-- The per-hit dedup body of `search_advanced`'s collection loop: a hit whose
id is already in `seen_ids` is discarded; otherwise its id is recorded, its
metadata is annotated with the producing namespace and sub-query, and it is
appended to `all_results`. State is `(all_results, seen_ids)`. -/
def annotateHit (h : Hit) (ns sq : String) : Hit :=
  { h with metadata := setMeta (setMeta h.metadata "namespace" ns) "sub_query" sq }

def dedupStep (ns sq : String) (st : List Hit × List String) (h : Hit) :
    List Hit × List String :=
  if h.id ∈ st.2 then st
  else (st.1 ++ [annotateHit h ns sq], st.2 ++ [h.id])

/-- One `(sub-query, namespace)` pair of `search_advanced`'s loop: the backend
is called with `top_k=3, rerank=True`; `except Exception: continue` swallows a
fault, leaving the state unchanged. -/
def pairStep (svc : SearchFn) (sq : String) (st : List Hit × List String)
    (ns : String) : List Hit × List String :=
  match svc ns sq 3 true with
  | Except.error _ => st
  | Except.ok hits => hits.foldl (dedupStep ns sq) st

/-- The full collection loop of `search_advanced`: sub-queries outer,
namespaces inner, starting from empty `all_results` and `seen_ids`. -/
def advancedCollect (svc : SearchFn) (sub_queries : List String) :
    List Hit × List String :=
  sub_queries.foldl (fun st sq => namespacesList.foldl (pairStep svc sq) st) ([], [])

/-- `search_advanced`: the sub-queries come from
`decompose_query(req.query, max_sub_queries=3)` upstream; the collected,
deduplicated hits are sorted by score descending (stable) and truncated to
`top_k`. -/
def search_advanced (svc : SearchFn) (sub_queries : List String) (top_k : ℕ) :
    List Hit :=
  (pySortByScoreDesc (advancedCollect svc sub_queries).1).take top_k

/-- Invariant of the `search_advanced` collection state: collected hit ids are
pairwise distinct and every collected id has been recorded in `seen_ids`. -/
def CollectInv (st : List Hit × List String) : Prop :=
  (st.1.map Hit.id).Nodup ∧ ∀ h ∈ st.1, h.id ∈ st.2

/-- `dedupStep` with the namespace/sub-query annotation already applied to
the hit; the `seen_ids` test is unaffected because annotation preserves the
id, so `dedupStep ns sq st h = genStep st (annotateHit h ns sq)`
definitionally. -/
def genStep (st : List Hit × List String) (h : Hit) : List Hit × List String :=
  if h.id ∈ st.2 then st else (st.1 ++ [h], st.2 ++ [h.id])

/-- Every hit the `search_advanced` collection loop encounters, annotated, in
the fixed iteration order — sub-queries outer, namespaces inner, backend
rank innermost; a faulting pair contributes no hits. -/
def encounterList (svc : SearchFn) (sub_queries : List String) : List Hit :=
  sub_queries.flatMap (fun sq => namespacesList.flatMap (fun ns =>
    match svc ns sq 3 true with
    | Except.error _ => []
    | Except.ok hits => hits.map (fun h => annotateHit h ns sq)))

/-- A backend where the iteration-order-first namespace returns a LOWER
scoring hit than a later namespace sharing the same id `"X"`. -/
def svcFirstLow : SearchFn := fun ns _ _ _ =>
  if ns = "fraud-cases" then Except.ok [Hit.mk "X" "t1" 1 []]
  else if ns = "risk-patterns" then Except.ok [Hit.mk "X" "t2" 2 []]
  else Except.ok []

def hitX2 : Hit := ⟨"X", "fraud case text", 2, []⟩

def hitX1 : Hit := ⟨"X", "knowledge text", 1, []⟩

/-- A backend where two namespaces return hits sharing id `"X"` with
different scores. -/
def svcDup : SearchFn := fun ns _ _ _ =>
  if ns = "fraud-cases" then Except.ok [hitX2]
  else if ns = "onboarding-knowledge" then Except.ok [hitX1]
  else Except.ok []

/-! ## Query decomposer (`services/query_decomposer.py`) -/

/-- A parsed JSON value as far as `decompose_query` inspects it: `json.loads`
can yield a list — whose elements may or may not be strings, the code checks
only `isinstance(parsed, list)` — or some non-list value. -/
inductive PyVal where
  | str (s : String)
  | intVal (n : ℤ)
  | listVal (xs : List PyVal)
  | other

/-- The observable behaviour of the LLM collaborator inside
`decompose_query`: the Anthropic client can be absent (no API key), the
call or the `json.loads` parse can raise, or a parsed JSON value is
produced. -/
inductive LLMOutcome where
  | noClient
  | fault
  | value (v : PyVal)

/-- `decompose_query(query, max_sub_queries)`: returns `[query]` when the
client is missing, when the call or the parse raises, when the parsed value
is not a list, or when it is an empty list; otherwise it returns
`parsed[:max_sub_queries]` verbatim. -/
def decompose_query (query : String) (max_sub_queries : ℕ)
    (outcome : LLMOutcome) : List PyVal :=
  match outcome with
  | LLMOutcome.noClient => [PyVal.str query]
  | LLMOutcome.fault => [PyVal.str query]
  | LLMOutcome.value v =>
    match v with
    | PyVal.listVal xs =>
        if xs.length > 0 then xs.take max_sub_queries else [PyVal.str query]
    | _ => [PyVal.str query]

/-- Outcomes on which `decompose_query` falls back to the identity
decomposition: missing client, raised exception (unreachable collaborator or
unparseable output), parsed non-list, or parsed empty list. -/
def fallbackOutcome : LLMOutcome → Prop
  | LLMOutcome.noClient => True
  | LLMOutcome.fault => True
  | LLMOutcome.value (PyVal.listVal xs) => xs = []
  | LLMOutcome.value _ => True

/-! ## Evaluation store (`services/trulens_evaluator.py`)

Timestamps are ISO-8601 UTC strings whose lexicographic comparison agrees
with chronological order for the fixed format; they are modelled as natural
number time points. The module-level `_evaluations` list is modelled as an
explicit store value threaded through the operations. -/

/-- One `{metric, score, details}` entry of an evaluation record. -/
structure ScoreEntry where
  metric : String
  score : ℚ
  details : Option String
deriving DecidableEq

/-- One evaluation record as built by `evaluate_rag` and appended to the
module-level `_evaluations` list. -/
structure EvaluationRecord where
  evaluation_id : String
  query : String
  agent_response : String
  retrieved_contexts : List String
  ground_truth : Option String
  scores : List ScoreEntry
  use_case : String
  agent_id : String
  timestamp : ℕ
deriving DecidableEq

/-- Python's stable `sorted(evals, key=lambda e: e["timestamp"],
reverse=True)`: descending by timestamp, equal keys keep their original
order. -/
def pySortByTimestampDesc (l : List EvaluationRecord) : List EvaluationRecord :=
  l.insertionSort (fun a b => b.timestamp ≤ a.timestamp)

/-- `get_evaluations(limit, use_case)`: optional use-case filter, stable
sort by timestamp descending, truncate to `limit`. -/
def get_evaluations (store : List EvaluationRecord) (limit : ℕ)
    (use_case : Option String) : List EvaluationRecord :=
  let evals := match use_case with
    | some uc => store.filter (fun e => e.use_case == uc)
    | none => store
  (pySortByTimestampDesc evals).take limit

def recA : EvaluationRecord :=
  ⟨"EVAL-a", "q1", "r1", [], none, [], "general", "agent", 100⟩

def recB : EvaluationRecord :=
  ⟨"EVAL-b", "q2", "r2", [], none, [], "general", "agent", 100⟩

def recC : EvaluationRecord :=
  ⟨"EVAL-c", "q3", "r3", [], none, [], "general", "agent", 200⟩

/-- The outcome of the four TruLens judge calls in `evaluate_rag` for one
interaction: each call either returns a score or raises (`Except.error`
carries `str(e)`); context relevance is judged per retrieved context. -/
structure FeedbackProvider where
  relevance : Except String ℚ
  context_relevance : String → Except String ℚ
  groundedness : Except String ℚ
  coherence : Except String ℚ

/-- The `for ctx in retrieved_contexts[:5]` loop inside the single
context-relevance try-block: scores are collected in order until a call
raises, in which case the whole block faults with that error. -/
def ctxLoop (f : String → Except String ℚ) : List String → Except String (List ℚ)
  | [] => Except.ok []
  | c :: cs =>
    match f c with
    | Except.error e => Except.error e
    | Except.ok s =>
      match ctxLoop f cs with
      | Except.error e => Except.error e
      | Except.ok rest => Except.ok (s :: rest)

/-- `evaluate_rag`: runs the four feedback functions, each in its own
try/except — a fault yields a score entry with score `0.0` and the error
text in `details` — builds the result record and appends it to the store.
Returns (result, new store). The generated `evaluation_id` and the
creation `timestamp` are inputs of the model. -/
def evaluate_rag (p : FeedbackProvider) (query : String)
    (retrieved_contexts : List String) (agent_response : String)
    (ground_truth : Option String) (use_case agent_id : String)
    (evaluation_id : String) (timestamp : ℕ) (store : List EvaluationRecord) :
    EvaluationRecord × List EvaluationRecord :=
  let s1 := match p.relevance with
    | Except.ok v => ScoreEntry.mk "answer_relevance" v none
    | Except.error e => ScoreEntry.mk "answer_relevance" 0 (some e)
  let s2 := match ctxLoop p.context_relevance (retrieved_contexts.take 5) with
    | Except.ok cs =>
        ScoreEntry.mk "context_relevance"
          (if cs = [] then 0 else cs.sum / cs.length) none
    | Except.error e => ScoreEntry.mk "context_relevance" 0 (some e)
  let s3 := match p.groundedness with
    | Except.ok v => ScoreEntry.mk "groundedness" v none
    | Except.error e => ScoreEntry.mk "groundedness" 0 (some e)
  let s4 := match p.coherence with
    | Except.ok v => ScoreEntry.mk "coherence" v none
    | Except.error e => ScoreEntry.mk "coherence" 0 (some e)
  let result := EvaluationRecord.mk evaluation_id query agent_response
    retrieved_contexts ground_truth [s1, s2, s3, s4] use_case agent_id timestamp
  (result, store ++ [result])

/-- Per-use-case aggregate entry: the four rounded means plus a count. -/
structure UseCaseMetrics where
  answer_relevance : ℚ
  context_precision : ℚ
  groundedness : ℚ
  faithfulness : ℚ
  count : ℕ
deriving DecidableEq

/-- The value returned by `get_aggregate_metrics`; `by_use_case` is a Python
dict in first-appearance key order, modelled as an association list. -/
structure AggregateMetrics where
  answer_relevance : ℚ
  context_precision : ℚ
  groundedness : ℚ
  faithfulness : ℚ
  total_evaluations : ℕ
  by_use_case : List (String × UseCaseMetrics)
deriving DecidableEq

/-- Python's `round(x, 4)`: round half to even at 4 decimal places. -/
def pyRound4 (x : ℚ) : ℚ :=
  let y := x * 10000
  let f : ℤ := ⌊y⌋
  let n : ℤ :=
    if y - f < 1/2 then f
    else if 1/2 < y - f then f + 1
    else if f % 2 = 0 then f else f + 1
  (n : ℚ) / 10000

/-- The `avg` helper of `get_aggregate_metrics`: arithmetic mean, `0.0` on
the empty list. -/
def avgQ (l : List ℚ) : ℚ := if l = [] then 0 else l.sum / l.length

/-- The scores the `metrics[m].append(...)` / `by_use_case[uc][m].append(...)`
loops collect for metric `m` over `evs`, in iteration order (records outer,
score entries inner). -/
def collectMetric (evs : List EvaluationRecord) (m : String) : List ℚ :=
  evs.flatMap (fun ev => (ev.scores.filter (fun s => s.metric == m)).map
    (fun s => s.score))

/-- First-appearance order of use cases — Python dict key order of
`by_use_case`. -/
def useCaseKeys (evs : List EvaluationRecord) : List String :=
  evs.foldl (fun acc ev => if ev.use_case ∈ acc then acc else acc ++ [ev.use_case]) []

/-- `get_aggregate_metrics`: the all-zero aggregate on the empty store;
otherwise the four global rounded means, the record count, and the
per-use-case breakdown (rounded means plus the answer-relevance score count). -/
def get_aggregate_metrics (store : List EvaluationRecord) : AggregateMetrics :=
  if store = [] then
    AggregateMetrics.mk 0 0 0 0 0 []
  else
    AggregateMetrics.mk
      (pyRound4 (avgQ (collectMetric store "answer_relevance")))
      (pyRound4 (avgQ (collectMetric store "context_relevance")))
      (pyRound4 (avgQ (collectMetric store "groundedness")))
      (pyRound4 (avgQ (collectMetric store "coherence")))
      store.length
      ((useCaseKeys store).map (fun uc =>
        (uc,
          UseCaseMetrics.mk
            (pyRound4 (avgQ (collectMetric
              (store.filter (fun ev => ev.use_case == uc)) "answer_relevance")))
            (pyRound4 (avgQ (collectMetric
              (store.filter (fun ev => ev.use_case == uc)) "context_relevance")))
            (pyRound4 (avgQ (collectMetric
              (store.filter (fun ev => ev.use_case == uc)) "groundedness")))
            (pyRound4 (avgQ (collectMetric
              (store.filter (fun ev => ev.use_case == uc)) "coherence")))
            (collectMetric
              (store.filter (fun ev => ev.use_case == uc)) "answer_relevance").length)))

/-- The specification's view of the scores collected for metric `m`: flatten
every record's score entries in order and keep those carrying metric `m`. -/
def flatScores (store : List EvaluationRecord) (m : String) : List ℚ :=
  ((store.flatMap (fun ev => ev.scores)).filter (fun s => s.metric == m)).map
    (fun s => s.score)

/-- A provider whose four judges all raise `"judge down"`. -/
def provAllFault : FeedbackProvider :=
  ⟨Except.error "judge down", fun _ => Except.error "judge down",
   Except.error "judge down", Except.error "judge down"⟩

def recThird : EvaluationRecord :=
  ⟨"EVAL-t", "q", "r", [], none, [ScoreEntry.mk "answer_relevance" (1/3) none],
   "general", "agent", 100⟩

/-! ## Theorems -/

theorem logb_two_pos_at (i : ℕ) : 0 < Real.logb 2 ((i : ℝ) + 2) := by
  apply Real.logb_pos (by norm_num)
  have : (0 : ℝ) ≤ (i : ℝ) := Nat.cast_nonneg i
  linarith

theorem discountWeight_pos (i : ℕ) : 0 < discountWeight i := by
  unfold discountWeight
  exact div_pos one_pos (logb_two_pos_at i)

theorem discountWeight_antitone {i j : ℕ} (h : i ≤ j) :
    discountWeight j ≤ discountWeight i := by
  unfold discountWeight
  apply one_div_le_one_div_of_le (logb_two_pos_at i)
  apply Real.logb_le_logb_of_le (by norm_num)
  · have : (0 : ℝ) ≤ (i : ℝ) := Nat.cast_nonneg i
    linarith
  · have : (i : ℝ) ≤ (j : ℝ) := Nat.cast_le.mpr h
    linarith

/-- A sum of an antitone nonnegative weight over any finite set of positions
is at most the sum of the weight over the first `card` positions. -/
theorem sum_le_sum_range_card (f : ℕ → ℝ)
    (hmono : ∀ i j, i ≤ j → f j ≤ f i) :
    ∀ (n : ℕ) (S : Finset ℕ), S.card = n →
      ∑ i ∈ S, f i ≤ ∑ i ∈ Finset.range n, f i := by
  intro n
  induction n with
  | zero =>
    intro S hS
    rw [Finset.card_eq_zero] at hS
    subst hS
    simp
  | succ c ih =>
    intro S hS
    have hne : S.Nonempty := Finset.card_pos.mp (by omega)
    have hmem : S.max' hne ∈ S := S.max'_mem hne
    have hsub : S ⊆ Finset.range (S.max' hne + 1) := by
      intro x hx
      exact Finset.mem_range.mpr (Nat.lt_succ_of_le (S.le_max' x hx))
    have hcard : c + 1 ≤ S.max' hne + 1 := by
      calc c + 1 = S.card := hS.symm
        _ ≤ (Finset.range (S.max' hne + 1)).card := Finset.card_le_card hsub
        _ = S.max' hne + 1 := Finset.card_range _
    have h2 : (S.erase (S.max' hne)).card = c := by
      rw [Finset.card_erase_of_mem hmem, hS]
      omega
    have h1 : ∑ i ∈ S, f i = ∑ i ∈ S.erase (S.max' hne), f i + f (S.max' hne) :=
      (Finset.sum_erase_add _ _ hmem).symm
    rw [h1, Finset.sum_range_succ]
    exact add_le_add (ih _ h2) (hmono c (S.max' hne) (by omega))

/-- With a duplicate-free retrieved list, at most `|relevant_ids|` of the
first `m` positions can hold a relevant id. -/
theorem card_relevant_positions_le {retrieved_ids relevant_ids : List String}
    (hnd : retrieved_ids.Nodup) {m : ℕ} (hm : m ≤ retrieved_ids.length) :
    ((Finset.range m).filter
        (fun i => retrieved_ids.getD i "" ∈ relevant_ids)).card ≤
      relevant_ids.length := by
  have hinj := List.nodup_iff_injective_get.mp hnd
  calc ((Finset.range m).filter
        (fun i => retrieved_ids.getD i "" ∈ relevant_ids)).card
      ≤ relevant_ids.toFinset.card := by
        apply Finset.card_le_card_of_injOn (fun i => retrieved_ids.getD i "")
        · intro i hi
          rw [Finset.mem_filter] at hi
          exact List.mem_toFinset.mpr hi.2
        · intro i hi j hj hij
          rw [Finset.coe_filter, Set.mem_setOf_eq] at hi hj
          have hi' : i < retrieved_ids.length :=
            lt_of_lt_of_le (Finset.mem_range.mp hi.1) hm
          have hj' : j < retrieved_ids.length :=
            lt_of_lt_of_le (Finset.mem_range.mp hj.1) hm
          have hij' : retrieved_ids.get ⟨i, hi'⟩ = retrieved_ids.get ⟨j, hj'⟩ := by
            simp only [List.get_eq_getElem]
            have hb : retrieved_ids.getD i "" = retrieved_ids[i] := by
              simp [List.getD, List.getElem?_eq_getElem hi']
            have hc : retrieved_ids.getD j "" = retrieved_ids[j] := by
              simp [List.getD, List.getElem?_eq_getElem hj']
            simp only at hij
            rw [hb, hc] at hij
            exact hij
          exact congrArg Fin.val (hinj hij')
    _ ≤ relevant_ids.length := relevant_ids.toFinset_card_le

theorem compute_ndcg_nonneg (retrieved_ids relevant_ids : List String) (k : ℕ) :
    0 ≤ compute_ndcg retrieved_ids relevant_ids k := by
  rw [compute_ndcg]
  split
  · exact le_refl 0
  · dsimp only
    split
    · exact le_refl 0
    · apply div_nonneg
      · apply Finset.sum_nonneg
        intro i _
        split
        · exact le_of_lt (div_pos one_pos (logb_two_pos_at i))
        · exact le_refl 0
      · exact Finset.sum_nonneg fun i _ => le_of_lt (div_pos one_pos (logb_two_pos_at i))

theorem compute_ndcg_le_one {retrieved_ids : List String} (relevant_ids : List String)
    (k : ℕ) (hnd : retrieved_ids.Nodup) :
    compute_ndcg retrieved_ids relevant_ids k ≤ 1 := by
  rw [compute_ndcg]
  split
  · exact zero_le_one
  · dsimp only
    split
    · exact zero_le_one
    · rename_i hguard hidcg
      have hw : ∀ i : ℕ, (0 : ℝ) ≤ 1 / Real.logb 2 ((i : ℝ) + 2) :=
        fun i => le_of_lt (div_pos one_pos (logb_two_pos_at i))
      have hidcg_pos : 0 < ∑ i ∈ Finset.range (min k relevant_ids.length),
          1 / Real.logb 2 ((i : ℝ) + 2) :=
        lt_of_le_of_ne (Finset.sum_nonneg fun i _ => hw i) (Ne.symm hidcg)
      rw [div_le_one hidcg_pos]
      have hfilter : ∑ i ∈ Finset.range (min k retrieved_ids.length),
          (if retrieved_ids.getD i "" ∈ relevant_ids
            then 1 / Real.logb 2 ((i : ℝ) + 2) else 0)
          = ∑ i ∈ (Finset.range (min k retrieved_ids.length)).filter
              (fun i => retrieved_ids.getD i "" ∈ relevant_ids),
              1 / Real.logb 2 ((i : ℝ) + 2) := (Finset.sum_filter _ _).symm
      rw [hfilter]
      have hcard : ((Finset.range (min k retrieved_ids.length)).filter
          (fun i => retrieved_ids.getD i "" ∈ relevant_ids)).card
          ≤ min k relevant_ids.length := by
        apply le_min
        · calc ((Finset.range (min k retrieved_ids.length)).filter
              (fun i => retrieved_ids.getD i "" ∈ relevant_ids)).card
              ≤ (Finset.range (min k retrieved_ids.length)).card :=
                Finset.card_filter_le _ _
            _ = min k retrieved_ids.length := Finset.card_range _
            _ ≤ k := min_le_left _ _
        · exact card_relevant_positions_le hnd (min_le_right _ _)
      calc ∑ i ∈ (Finset.range (min k retrieved_ids.length)).filter
            (fun i => retrieved_ids.getD i "" ∈ relevant_ids),
            1 / Real.logb 2 ((i : ℝ) + 2)
          ≤ ∑ i ∈ Finset.range (((Finset.range (min k retrieved_ids.length)).filter
              (fun i => retrieved_ids.getD i "" ∈ relevant_ids)).card),
              1 / Real.logb 2 ((i : ℝ) + 2) :=
            sum_le_sum_range_card _ (fun i j hij => discountWeight_antitone hij) _ _ rfl
        _ ≤ ∑ i ∈ Finset.range (min k relevant_ids.length),
              1 / Real.logb 2 ((i : ℝ) + 2) := by
            apply Finset.sum_le_sum_of_subset_of_nonneg
              (Finset.range_subset.mpr hcard)
            intro i _ _
            exact hw i

theorem ndcg_eq_spec_aux (retrieved_ids relevant_ids : List String) (k : ℕ) :
    compute_ndcg retrieved_ids relevant_ids k = spec_ndcg retrieved_ids relevant_ids k := by
  have hreidx : ∀ (n : ℕ) (g : ℕ → ℝ),
      ∑ i ∈ Finset.Icc 1 n, g i = ∑ i ∈ Finset.range n, g (1 + i) := by
    intro n g
    rw [← Nat.Ico_succ_right, Finset.sum_Ico_eq_sum_range]
    simp
  have hident : ∀ n : ℕ, ∑ i ∈ Finset.Icc 1 n, (1 : ℝ) / Real.logb 2 ((i : ℝ) + 1)
      = ∑ i ∈ Finset.range n, 1 / Real.logb 2 ((i : ℝ) + 2) := by
    intro n
    rw [hreidx]
    apply Finset.sum_congr rfl
    intro j _
    congr 2
    push_cast
    ring
  have hdcg : ∀ m : ℕ, ∑ i ∈ Finset.Icc 1 m,
      (if retrieved_ids.getD (i - 1) "" ∈ relevant_ids then (1 : ℝ) else 0) /
        Real.logb 2 ((i : ℝ) + 1)
      = ∑ i ∈ Finset.range m,
          if retrieved_ids.getD i "" ∈ relevant_ids
            then (1 : ℝ) / Real.logb 2 ((i : ℝ) + 2) else 0 := by
    intro m
    rw [hreidx]
    apply Finset.sum_congr rfl
    intro j _
    have h1 : 1 + j - 1 = j := by omega
    have h2 : ((1 + j : ℕ) : ℝ) + 1 = (j : ℝ) + 2 := by push_cast; ring
    rw [h1, h2]
    split
    · rfl
    · exact zero_div _
  by_cases hguard : retrieved_ids = [] ∨ relevant_ids = []
  · rcases hguard with h | h
    · subst h
      rw [compute_ndcg, spec_ndcg, if_pos (Or.inl rfl)]
      dsimp only [List.length_nil]
      have hd : Finset.Icc 1 (min k 0) = (∅ : Finset ℕ) := by
        rw [Finset.Icc_eq_empty_iff]
        omega
      rw [hd, Finset.sum_empty]
      split
      · rfl
      · rw [zero_div]
    · subst h
      rw [compute_ndcg, spec_ndcg, if_pos (Or.inr rfl)]
      dsimp only [List.length_nil]
      have hd : Finset.Icc 1 (min k 0) = (∅ : Finset ℕ) := by
        rw [Finset.Icc_eq_empty_iff]
        omega
      rw [hd, Finset.sum_empty, if_pos rfl]
  · rw [compute_ndcg, spec_ndcg, if_neg hguard]
    dsimp only
    rw [hdcg, hident]

theorem ndcg_example_best_first : compute_ndcg ["a", "b", "c"] ["a"] 3 = 1 := by
  have h2 : Real.logb 2 2 = 1 := Real.logb_self_eq_one (by norm_num)
  have hba : ("b" : String) ≠ "a" := by decide
  have hca : ("c" : String) ≠ "a" := by decide
  rw [compute_ndcg, if_neg (by simp)]
  norm_num [Finset.sum_range_succ, h2, hba, hca]

theorem ndcg_example_best_last :
    compute_ndcg ["c", "b", "a"] ["a"] 3 = (1 / Real.logb 2 4) / (1 / Real.logb 2 2) := by
  have h2 : Real.logb 2 2 = 1 := Real.logb_self_eq_one (by norm_num)
  have hba : ("b" : String) ≠ "a" := by decide
  have hca : ("c" : String) ≠ "a" := by decide
  rw [compute_ndcg, if_neg (by simp)]
  norm_num [Finset.sum_range_succ, h2, hba, hca]

theorem compute_hit_rate_mem_unit (retrieved_ids relevant_ids : List String) :
    0 ≤ compute_hit_rate retrieved_ids relevant_ids ∧
      compute_hit_rate retrieved_ids relevant_ids ≤ 1 := by
  rw [compute_hit_rate]
  split
  · exact ⟨le_refl 0, zero_le_one⟩
  · split
    · exact ⟨le_refl 0, zero_le_one⟩
    · rename_i hrel _
      have hlen : 0 < (relevant_ids.length : ℚ) := by
        have h0 : relevant_ids.length ≠ 0 := by
          simpa [List.length_eq_zero] using hrel
        exact_mod_cast Nat.pos_of_ne_zero h0
      constructor
      · apply div_nonneg _ (le_of_lt hlen)
        exact_mod_cast Nat.zero_le _
      · rw [div_le_one hlen]
        exact_mod_cast List.countP_le_length _

theorem compute_mrr_mem_unit (retrieved_ids relevant_ids : List String) :
    0 ≤ compute_mrr retrieved_ids relevant_ids ∧
      compute_mrr retrieved_ids relevant_ids ≤ 1 := by
  rw [compute_mrr]
  split
  · exact ⟨le_refl 0, zero_le_one⟩
  · split
    · rename_i i _
      have hpos : 0 < (i : ℚ) + 1 := by positivity
      constructor
      · exact le_of_lt (div_pos one_pos hpos)
      · rw [div_le_one hpos]
        have h0 : (0 : ℚ) ≤ (i : ℚ) := Nat.cast_nonneg i
        linarith
    · exact ⟨le_refl 0, zero_le_one⟩

/-- C4: the NDCG@k computation equals the spec formula exactly — DCG sums
`rel(i)/log2(i+1)` for 1-indexed `i` up to `min(k,|retrieved|)` with binary
relevance, IDCG sums `1/log2(i+1)` up to `min(k,|relevant|)`, `NDCG =
DCG/IDCG` and `0.0` when `IDCG = 0` — and reproduces both worked examples:
`ndcg(["a","b","c"], {"a"}, 3) = 1` and `ndcg(["c","b","a"], {"a"}, 3) =
(1/log2 4)/(1/log2 2)`. -/
theorem C4_ndcg_matches_spec :
    (∀ (retrieved_ids relevant_ids : List String) (k : ℕ),
        compute_ndcg retrieved_ids relevant_ids k
          = spec_ndcg retrieved_ids relevant_ids k)
    ∧ compute_ndcg ["a", "b", "c"] ["a"] 3 = 1
    ∧ compute_ndcg ["c", "b", "a"] ["a"] 3
        = (1 / Real.logb 2 4) / (1 / Real.logb 2 2) :=
  ⟨ndcg_eq_spec_aux, ndcg_example_best_first, ndcg_example_best_last⟩

/-- C5 counterexample: for the non-empty inputs `retrieved_ids = ["a","a"]`
(a duplicate) and `relevant_ids = ["a"]` with the default `k = 5`, the
computed NDCG is strictly greater than 1, so it does not lie in `[0,1]`. -/
theorem C5_counterexample_ndcg_above_one :
    (["a", "a"] : List String) ≠ [] ∧ (["a"] : List String) ≠ [] ∧
      1 < compute_ndcg ["a", "a"] ["a"] 5 := by
  refine ⟨by decide, by decide, ?_⟩
  have h2 : Real.logb 2 2 = 1 := Real.logb_self_eq_one (by norm_num)
  have h3 : 0 < Real.logb 2 3 := Real.logb_pos (by norm_num) (by norm_num)
  rw [compute_ndcg, if_neg (by simp)]
  norm_num [Finset.sum_range_succ, h2]
  positivity

/-- C5 amended: for all inputs the hit rate and MRR lie in `[0,1]`; the NDCG
lies in `[0,1]` provided `retrieved_ids` is duplicate-free — with duplicate
retrieved ids each occurrence contributes to DCG and NDCG can exceed 1. -/
theorem C5_amended_metric_ranges :
    (∀ retrieved_ids relevant_ids : List String,
        0 ≤ compute_hit_rate retrieved_ids relevant_ids ∧
          compute_hit_rate retrieved_ids relevant_ids ≤ 1)
    ∧ (∀ retrieved_ids relevant_ids : List String,
        0 ≤ compute_mrr retrieved_ids relevant_ids ∧
          compute_mrr retrieved_ids relevant_ids ≤ 1)
    ∧ (∀ (retrieved_ids relevant_ids : List String) (k : ℕ),
        retrieved_ids.Nodup →
          0 ≤ compute_ndcg retrieved_ids relevant_ids k ∧
            compute_ndcg retrieved_ids relevant_ids k ≤ 1) :=
  ⟨compute_hit_rate_mem_unit, compute_mrr_mem_unit,
    fun r rel k h => ⟨compute_ndcg_nonneg r rel k, compute_ndcg_le_one rel k h⟩⟩

/-- Witness for the amended C5 range claim at the duplicate-free input
`retrieved_ids = ["a","b"]`, `relevant_ids = ["a"]`, `k = 5`. -/
theorem C5_amended_metric_ranges_witness :
    0 ≤ compute_ndcg ["a", "b"] ["a"] 5 ∧ compute_ndcg ["a", "b"] ["a"] 5 ≤ 1 :=
  C5_amended_metric_ranges.2.2 ["a", "b"] ["a"] 5 (by decide)

/-- A fold preserves any invariant its step function preserves. -/
theorem foldl_preserves {α β : Type} (P : α → Prop) (f : α → β → α)
    (hf : ∀ a b, P a → P (f a b)) :
    ∀ (l : List β) (a : α), P a → P (l.foldl f a)
  | [], _, ha => ha
  | b :: l, a, ha => foldl_preserves P f hf l (f a b) (hf a b ha)

theorem annotateHit_id (h : Hit) (ns sq : String) : (annotateHit h ns sq).id = h.id := rfl

theorem dedupStep_inv (ns sq : String) (st : List Hit × List String)
    (h : Hit) (hinv : CollectInv st) : CollectInv (dedupStep ns sq st h) := by
  rw [dedupStep]
  split
  · exact hinv
  · rename_i hnot
    refine ⟨?_, ?_⟩
    · show (List.map Hit.id (st.1 ++ [annotateHit h ns sq])).Nodup
      rw [List.map_append, List.nodup_append]
      refine ⟨hinv.1, by simp, ?_⟩
      intro x hx hx2
      apply hnot
      have hxh : x = h.id := by simpa [annotateHit] using hx2
      rw [List.mem_map] at hx
      obtain ⟨h', hh', hid⟩ := hx
      exact (hid.trans hxh) ▸ hinv.2 h' hh'
    · show ∀ h' ∈ st.1 ++ [annotateHit h ns sq], h'.id ∈ st.2 ++ [h.id]
      intro h' hh'
      rw [List.mem_append] at hh'
      rcases hh' with hmem | hmem
      · exact List.mem_append_left _ (hinv.2 h' hmem)
      · apply List.mem_append_right
        simp only [List.mem_singleton] at hmem
        subst hmem
        simp [annotateHit]

theorem pairStep_inv (svc : SearchFn) (sq : String) (st : List Hit × List String)
    (ns : String) (hinv : CollectInv st) : CollectInv (pairStep svc sq st ns) := by
  rw [pairStep]
  split
  · exact hinv
  · exact foldl_preserves CollectInv (dedupStep ns sq)
      (fun a b ha => dedupStep_inv ns sq a b ha) _ st hinv

theorem advancedCollect_inv (svc : SearchFn) (sub_queries : List String) :
    CollectInv (advancedCollect svc sub_queries) := by
  rw [advancedCollect]
  apply foldl_preserves CollectInv _ _ sub_queries ([], [])
  · exact ⟨List.nodup_nil, by simp⟩
  · intro st sq hst
    exact foldl_preserves CollectInv (pairStep svc sq)
      (fun a b ha => pairStep_inv svc sq a b ha) namespacesList st hst

theorem search_advanced_nodup_ids (svc : SearchFn) (sub_queries : List String)
    (top_k : ℕ) : ((search_advanced svc sub_queries top_k).map Hit.id).Nodup := by
  have hcoll := (advancedCollect_inv svc sub_queries).1
  have hperm : List.Perm (pySortByScoreDesc (advancedCollect svc sub_queries).1)
      (advancedCollect svc sub_queries).1 :=
    List.perm_insertionSort _ _
  have hsorted : ((pySortByScoreDesc (advancedCollect svc sub_queries).1).map Hit.id).Nodup :=
    ((hperm.map Hit.id).nodup_iff).mpr hcoll
  rw [search_advanced, List.map_take]
  exact (List.take_sublist _ _).nodup hsorted

/-- Extensionally equal step functions fold identically. -/
theorem foldl_ext_fun {α β : Type} (f g : α → β → α) (h : ∀ a b, f a b = g a b) :
    ∀ (l : List β) (a : α), l.foldl f a = l.foldl g a
  | [], _ => rfl
  | b :: l, a => by rw [List.foldl_cons, List.foldl_cons, h a b]; exact foldl_ext_fun f g h l (g a b)

/-- A fold whose step is the identity returns its initial state. -/
theorem foldl_id {α β : Type} (f : α → β → α) (h : ∀ a b, f a b = a) :
    ∀ (l : List β) (a : α), l.foldl f a = a
  | [], _ => rfl
  | b :: l, a => by rw [List.foldl_cons, h a b]; exact foldl_id f h l a

/-- Replacing every faulting backend answer by an empty hit list does not
change `pairStep`. -/
theorem pairStep_error_to_empty (svc : SearchFn) (sq : String)
    (st : List Hit × List String) (ns : String) :
    pairStep svc sq st ns
      = pairStep (fun ns' sq' tk r =>
          match svc ns' sq' tk r with
          | Except.error _ => Except.ok []
          | Except.ok hits => Except.ok hits) sq st ns := by
  rw [pairStep, pairStep]
  cases svc ns sq 3 true with
  | error e => rfl
  | ok hits => rfl

theorem foldl_flatMap {α β γ : Type} (f : γ → β → γ) (g : α → List β) :
    ∀ (l : List α) (init : γ),
      (l.flatMap g).foldl f init = l.foldl (fun st a => (g a).foldl f st) init
  | [], _ => rfl
  | a :: l, init => by
    rw [List.flatMap_cons, List.foldl_append, List.foldl_cons]
    exact foldl_flatMap f g l _

theorem dedupStep_eq_genStep (ns sq : String) (st : List Hit × List String)
    (h : Hit) : dedupStep ns sq st h = genStep st (annotateHit h ns sq) := rfl

theorem foldl_dedupStep_eq (ns sq : String) :
    ∀ (hits : List Hit) (st : List Hit × List String),
      hits.foldl (dedupStep ns sq) st
        = (hits.map (fun h => annotateHit h ns sq)).foldl genStep st
  | [], _ => rfl
  | h :: hs, st => by
    rw [List.foldl_cons, List.map_cons, List.foldl_cons, dedupStep_eq_genStep]
    exact foldl_dedupStep_eq ns sq hs _

theorem pairStep_eq_genFold (svc : SearchFn) (sq : String)
    (st : List Hit × List String) (ns : String) :
    pairStep svc sq st ns
      = (match svc ns sq 3 true with
         | Except.error _ => []
         | Except.ok hits => hits.map (fun h => annotateHit h ns sq)).foldl
          genStep st := by
  rw [pairStep]
  cases svc ns sq 3 true with
  | error e => rfl
  | ok hits => exact foldl_dedupStep_eq ns sq hits st

/-- The advanced collection loop is the fold of the plain dedup step over
the encounter sequence in iteration order. -/
theorem advancedCollect_eq_encounter_fold (svc : SearchFn)
    (sub_queries : List String) :
    advancedCollect svc sub_queries
      = (encounterList svc sub_queries).foldl genStep ([], []) := by
  rw [advancedCollect, encounterList, foldl_flatMap]
  apply foldl_ext_fun
  intro st sq
  rw [foldl_flatMap]
  apply foldl_ext_fun
  intro st' ns
  exact pairStep_eq_genFold svc sq st' ns

/-- Folding the dedup step collects, for each id, exactly the first hit of
the remaining sequence with that id — provided the state has never collected
an id it has not recorded as seen. -/
theorem genStep_foldl_filter (x : String) :
    ∀ (l : List Hit) (st : List Hit × List String),
      (x ∉ st.2 → st.1.filter (fun h => h.id == x) = []) →
      ((l.foldl genStep st).1.filter (fun h => h.id == x)
        = st.1.filter (fun h => h.id == x)
          ++ if x ∈ st.2 then [] else (l.filter (fun h => h.id == x)).take 1)
  | [], st, hsub => by
    rw [List.foldl_nil, List.filter_nil]
    split
    · rw [List.append_nil]
    · rw [List.take_nil, List.append_nil]
  | h :: l, st, hsub => by
    rw [List.foldl_cons]
    by_cases hh : h.id ∈ st.2
    · rw [show genStep st h = st from by rw [genStep, if_pos hh]]
      rw [genStep_foldl_filter x l st hsub]
      by_cases hx : x ∈ st.2
      · rw [if_pos hx, if_pos hx]
      · have hne : (h.id == x) = false := by
          simp only [beq_eq_false_iff_ne]
          intro he
          exact hx (he ▸ hh)
        rw [if_neg hx, if_neg hx, List.filter_cons, hne]
        simp only [Bool.false_eq_true, if_false]
    · have hg : genStep st h = (st.1 ++ [h], st.2 ++ [h.id]) := by
        rw [genStep, if_neg hh]
      rw [hg]
      have hsub' : x ∉ st.2 ++ [h.id] →
          (st.1 ++ [h]).filter (fun h' => h'.id == x) = [] := by
        intro hxn
        have hx2 : x ∉ st.2 := fun hc => hxn (List.mem_append_left _ hc)
        have hxh : (h.id == x) = false := by
          simp only [beq_eq_false_iff_ne]
          intro he
          exact hxn (List.mem_append_right _ (by simp [he]))
        rw [List.filter_append, hsub hx2, List.filter_cons, hxh]
        simp
      rw [genStep_foldl_filter x l _ hsub']
      by_cases hx : x ∈ st.2
      · have hne : (h.id == x) = false := by
          simp only [beq_eq_false_iff_ne]
          intro he
          exact hh (he ▸ hx)
        have hx' : x ∈ st.2 ++ [h.id] := List.mem_append_left _ hx
        rw [if_pos hx, if_pos hx', List.filter_append, List.filter_cons, hne]
        simp
      · by_cases hhx : h.id = x
        · have hx' : x ∈ st.2 ++ [h.id] :=
            List.mem_append_right _ (by simp [hhx])
          rw [if_pos hx', if_neg hx, List.filter_append, hsub hx,
            List.filter_cons, List.filter_cons]
          have hb : (h.id == x) = true := by simp [hhx]
          rw [hb]
          simp
        · have hx' : x ∉ st.2 ++ [h.id] := by
            intro hc
            rcases List.mem_append.mp hc with h1 | h2
            · exact hx h1
            · have hxe : x = h.id := by simpa using h2
              exact hhx hxe.symm
          have hne : (h.id == x) = false := by
            simp only [beq_eq_false_iff_ne]
            exact hhx
          rw [if_neg hx', if_neg hx, List.filter_append, List.filter_cons,
            List.filter_cons, hne]
          simp

/-- For every id, the collected `all_results` of `search_advanced` holds
exactly the FIRST hit of the encounter sequence with that id — every later
hit sharing the id is discarded, regardless of score. -/
theorem advancedCollect_filter_first (svc : SearchFn) (sub_queries : List String)
    (x : String) :
    (advancedCollect svc sub_queries).1.filter (fun h => h.id == x)
      = ((encounterList svc sub_queries).filter (fun h => h.id == x)).take 1 := by
  rw [advancedCollect_eq_encounter_fold]
  rw [genStep_foldl_filter x (encounterList svc sub_queries) ([], [])
    (fun _ => rfl)]
  simp

theorem perm_eq_of_length_le_one {l₁ l₂ : List Hit}
    (hp : List.Perm l₁ l₂) (hl : l₂.length ≤ 1) : l₁ = l₂ := by
  match l₂, hl with
  | [], _ => exact hp.eq_nil
  | [a], _ => exact List.perm_singleton.mp hp
  | a :: b :: t, hl => simp at hl

theorem search_advanced_filter_first (svc : SearchFn) (sub_queries : List String)
    (top_k : ℕ) (x : String)
    (htop : (advancedCollect svc sub_queries).1.length ≤ top_k) :
    (search_advanced svc sub_queries top_k).filter (fun h => h.id == x)
      = ((encounterList svc sub_queries).filter (fun h => h.id == x)).take 1 := by
  rw [search_advanced]
  have hlen : (pySortByScoreDesc (advancedCollect svc sub_queries).1).length
      = (advancedCollect svc sub_queries).1.length :=
    (List.perm_insertionSort _ _).length_eq
  rw [List.take_of_length_le (by rw [hlen]; exact htop)]
  have hperm : List.Perm
      ((pySortByScoreDesc (advancedCollect svc sub_queries).1).filter
        (fun h => h.id == x))
      ((advancedCollect svc sub_queries).1.filter (fun h => h.id == x)) :=
    (List.perm_insertionSort _ _).filter _
  rw [advancedCollect_filter_first svc sub_queries x] at hperm
  exact perm_eq_of_length_le_one hperm (List.length_take_le 1 _)

/-- C1: in the advanced variant, deduplication is first-seen-wins over the
full fixed iteration order (sub-queries outer, namespaces inner): for every
backend behaviour, sub-query list and id, the collected result set holds
exactly the first encountered hit with that id — later hits with the same
id, from any later (sub-query, namespace) pair, are discarded regardless of
score — and whenever `top_k` does not truncate the collection, the returned
MergedResultSet's hits with any given id are exactly that single
first-encountered hit. In particular, for any two namespaces both returning
a hit with the same id but different scores, the result contains exactly one
hit with that id, the one from the earlier pair in iteration order. -/
theorem C1_advanced_dedup_keeps_first :
    (∀ (svc : SearchFn) (sub_queries : List String) (x : String),
        (advancedCollect svc sub_queries).1.filter (fun h => h.id == x)
          = ((encounterList svc sub_queries).filter
              (fun h => h.id == x)).take 1)
    ∧ (∀ (svc : SearchFn) (sub_queries : List String) (top_k : ℕ) (x : String),
        (advancedCollect svc sub_queries).1.length ≤ top_k →
          (search_advanced svc sub_queries top_k).filter (fun h => h.id == x)
            = ((encounterList svc sub_queries).filter
                (fun h => h.id == x)).take 1) :=
  ⟨advancedCollect_filter_first, search_advanced_filter_first⟩

/-- Witness for C1: `"fraud-cases"` (earlier in iteration order) returns id
`"X"` with score 1 and `"risk-patterns"` returns the same id with the HIGHER
score 2; the result's sole `"X"` hit is the annotated score-1 hit from the
first pair. -/
theorem C1_advanced_dedup_keeps_first_witness :
    ((search_advanced svcFirstLow ["q"] 5).filter (fun h => h.id == "X")
      = ((encounterList svcFirstLow ["q"]).filter (fun h => h.id == "X")).take 1)
    ∧ ((encounterList svcFirstLow ["q"]).filter (fun h => h.id == "X")).take 1
      = [annotateHit (Hit.mk "X" "t1" 1 []) "fraud-cases" "q"] :=
  ⟨C1_advanced_dedup_keeps_first.2 svcFirstLow ["q"] 5 "X" (by decide), by decide⟩

/-- C2 counterexample: the broad variant `search_investigate` performs no
deduplication — with two namespaces both returning a hit with id `"X"`, the
returned MergedResultSet has id sequence `["X", "X"]`. -/
theorem C2_counterexample_investigate_duplicate :
    (search_investigate svcDup "q" 5).map (List.map Hit.id)
      = Except.ok ["X", "X"] := rfl

/-- C2 amended: only the advanced (decomposed) variant deduplicates by id:
its MergedResultSet never contains two elements with the same id, for every
backend behaviour, sub-query list and `top_k`. The broad all-namespaces
variant has no dedup step and can return duplicate ids. -/
theorem C2_amended_advanced_nodup :
    ∀ (svc : SearchFn) (sub_queries : List String) (top_k : ℕ),
      ((search_advanced svc sub_queries top_k).map Hit.id).Nodup :=
  search_advanced_nodup_ids

/-- C3 counterexample: in the broad variant a backend fault is NOT swallowed:
with every namespace call failing, `search_investigate` propagates the error
instead of returning an empty result set. -/
theorem C3_counterexample_investigate_fault_propagates :
    search_investigate (fun _ _ _ _ => Except.error "backend unavailable") "q" 5
      = Except.error "backend unavailable" := rfl

/-- C3 amended: only the advanced variant swallows backend faults: a faulting
(sub-query, namespace) pair contributes exactly zero hits (replacing every
fault by an empty hit list leaves the result unchanged), and when every call
faults the advanced result degrades to the empty MergedResultSet. The broad
variant propagates the first fault as a request-level failure. -/
theorem C3_amended_advanced_swallows_faults :
    (∀ (svc : SearchFn) (sub_queries : List String) (top_k : ℕ),
        search_advanced svc sub_queries top_k
          = search_advanced
              (fun ns sq tk r =>
                match svc ns sq tk r with
                | Except.error _ => Except.ok []
                | Except.ok hits => Except.ok hits)
              sub_queries top_k)
    ∧ (∀ (e : String) (sub_queries : List String) (top_k : ℕ),
        search_advanced (fun _ _ _ _ => Except.error e) sub_queries top_k = []) := by
  constructor
  · intro svc sub_queries top_k
    have hcoll : advancedCollect svc sub_queries
        = advancedCollect
            (fun ns sq tk r =>
              match svc ns sq tk r with
              | Except.error _ => Except.ok []
              | Except.ok hits => Except.ok hits)
            sub_queries := by
      rw [advancedCollect, advancedCollect]
      apply foldl_ext_fun
      intro st sq
      apply foldl_ext_fun
      intro st' ns
      exact pairStep_error_to_empty svc sq st' ns
    rw [search_advanced, search_advanced, hcoll]
  · intro e sub_queries top_k
    have hcoll : advancedCollect (fun _ _ _ _ => Except.error e) sub_queries
        = ([], []) := by
      rw [advancedCollect]
      apply foldl_id
      intro st sq
      apply foldl_id
      intro st' ns
      rfl
    rw [search_advanced, hcoll]
    simp [pySortByScoreDesc]

/-- C6 counterexample: the code validates only `isinstance(parsed, list)`,
not that the elements are strings. When the collaborator's output parses to
the non-string list `[1]` — malformed per the claim's definition — the
function returns `[1]` verbatim instead of the identity decomposition
`[query]`. -/
theorem C6_counterexample_nonstring_list :
    decompose_query "q" 3 (LLMOutcome.value (PyVal.listVal [PyVal.intVal 1]))
      = [PyVal.intVal 1]
    ∧ [PyVal.intVal 1] ≠ [PyVal.str "q"] := ⟨rfl, by simp⟩

/-- C6 amended: `decompose_query` never raises (it is total); on a fallback
outcome — collaborator unavailable or faulting, output unparseable, a parsed
non-list, or a parsed empty list — it returns exactly `[query]`; when the
output parses to a nonempty list it returns the first `max_sub_queries`
elements of that list verbatim, without validating that they are strings;
and whenever `max_sub_queries ≥ 1` the result length is between 1 and
`max_sub_queries` inclusive. -/
theorem C6_amended_decompose :
    (∀ (q : String) (m : ℕ) (o : LLMOutcome), fallbackOutcome o →
        decompose_query q m o = [PyVal.str q])
    ∧ (∀ (q : String) (m : ℕ) (xs : List PyVal), xs ≠ [] →
        decompose_query q m (LLMOutcome.value (PyVal.listVal xs)) = xs.take m)
    ∧ (∀ (q : String) (m : ℕ) (o : LLMOutcome), 1 ≤ m →
        1 ≤ (decompose_query q m o).length ∧ (decompose_query q m o).length ≤ m) := by
  refine ⟨?_, ?_, ?_⟩
  · intro q m o ho
    match o with
    | LLMOutcome.noClient => rfl
    | LLMOutcome.fault => rfl
    | LLMOutcome.value (PyVal.str s) => rfl
    | LLMOutcome.value (PyVal.intVal n) => rfl
    | LLMOutcome.value PyVal.other => rfl
    | LLMOutcome.value (PyVal.listVal xs) =>
      have hxs : xs = [] := ho
      subst hxs
      rfl
  · intro q m xs hxs
    rw [decompose_query]
    rw [if_pos (by simpa [List.length_pos] using hxs)]
  · intro q m o hm
    match o with
    | LLMOutcome.noClient => exact ⟨le_refl 1, hm⟩
    | LLMOutcome.fault => exact ⟨le_refl 1, hm⟩
    | LLMOutcome.value (PyVal.str s) => exact ⟨le_refl 1, hm⟩
    | LLMOutcome.value (PyVal.intVal n) => exact ⟨le_refl 1, hm⟩
    | LLMOutcome.value PyVal.other => exact ⟨le_refl 1, hm⟩
    | LLMOutcome.value (PyVal.listVal xs) =>
      rw [decompose_query]
      split
      · rename_i hpos
        rw [List.length_take]
        constructor
        · exact le_min hm (by omega)
        · exact min_le_left _ _
      · exact ⟨le_refl 1, hm⟩

/-- Witness for the amended C6 at the fallback outcome the spec highlights:
an unreachable collaborator yields the identity decomposition. -/
theorem C6_amended_decompose_witness :
    decompose_query "q" 3 LLMOutcome.noClient = [PyVal.str "q"] :=
  C6_amended_decompose.1 "q" 3 LLMOutcome.noClient trivial

theorem pySortByTimestampDesc_sorted (l : List EvaluationRecord) :
    (pySortByTimestampDesc l).Pairwise (fun a b => b.timestamp ≤ a.timestamp) := by
  haveI : IsTotal EvaluationRecord (fun a b => b.timestamp ≤ a.timestamp) :=
    ⟨fun a b => le_total b.timestamp a.timestamp⟩
  haveI : IsTrans EvaluationRecord (fun a b => b.timestamp ≤ a.timestamp) :=
    ⟨fun _ _ _ hab hbc => le_trans hbc hab⟩
  exact List.sorted_insertionSort _ l

theorem orderedInsert_filter_timestamp (x : EvaluationRecord) (t : ℕ) :
    ∀ l : List EvaluationRecord,
      (List.orderedInsert (fun a b => b.timestamp ≤ a.timestamp) x l).filter
          (fun e => e.timestamp == t)
        = if x.timestamp == t
            then x :: l.filter (fun e => e.timestamp == t)
            else l.filter (fun e => e.timestamp == t)
  | [] => by
    cases h : x.timestamp == t <;>
      simp [List.orderedInsert, List.filter_cons, h]
  | y :: ys => by
    rw [List.orderedInsert]
    by_cases hr : y.timestamp ≤ x.timestamp
    · rw [if_pos hr]
      cases h : x.timestamp == t <;> simp [List.filter_cons, h]
    · rw [if_neg hr]
      have hyt : (y.timestamp == t) = true → (x.timestamp == t) = false := by
        intro hy
        have hy' : y.timestamp = t := by simpa using hy
        by_contra hx
        have hx' : x.timestamp = t := by
          cases h2 : x.timestamp == t
          · exact absurd h2 (by simpa using hx)
          · simpa using h2
        exact hr (le_of_eq (hy'.trans hx'.symm))
      rw [List.filter_cons, List.filter_cons, orderedInsert_filter_timestamp x t ys]
      cases hy : y.timestamp == t
      · simp [hy]
      · have hx := hyt hy
        simp [hy, hx]

/-- Stability of the model of Python's sort: among the records carrying any
one timestamp value, sorting preserves the original (insertion) order. -/
theorem pySortByTimestampDesc_stable (t : ℕ) :
    ∀ l : List EvaluationRecord,
      (pySortByTimestampDesc l).filter (fun e => e.timestamp == t)
        = l.filter (fun e => e.timestamp == t)
  | [] => rfl
  | x :: l => by
    show (List.orderedInsert _ x (pySortByTimestampDesc l)).filter _ = _
    rw [orderedInsert_filter_timestamp, pySortByTimestampDesc_stable t l,
      List.filter_cons]

theorem get_evaluations_append_fresh (store : List EvaluationRecord)
    (r : EvaluationRecord) (hmax : ∀ e ∈ store, e.timestamp < r.timestamp) :
    get_evaluations (store ++ [r]) 1 none = [r] := by
  rw [get_evaluations]
  have hperm : List.Perm (pySortByTimestampDesc (store ++ [r])) (store ++ [r]) :=
    List.perm_insertionSort _ _
  obtain ⟨hd, tl, hL⟩ : ∃ hd tl, pySortByTimestampDesc (store ++ [r]) = hd :: tl := by
    cases hcase : pySortByTimestampDesc (store ++ [r]) with
    | nil =>
      have hlen := hperm.length_eq
      rw [hcase] at hlen
      simp at hlen
    | cons hd tl => exact ⟨hd, tl, rfl⟩
  have hhd : hd = r := by
    have hmemL : hd ∈ pySortByTimestampDesc (store ++ [r]) := by
      rw [hL]
      exact List.mem_cons_self _ _
    have hmem : hd ∈ store ++ [r] := hperm.subset hmemL
    rcases List.mem_append.mp hmem with hs | hr
    · have hrL : r ∈ pySortByTimestampDesc (store ++ [r]) :=
        hperm.mem_iff.mpr (List.mem_append_right _ (List.mem_singleton_self r))
      rw [hL] at hrL
      rcases List.mem_cons.mp hrL with h1 | h2
      · exact h1.symm
      · have hsorted := pySortByTimestampDesc_sorted (store ++ [r])
        rw [hL] at hsorted
        have hle : r.timestamp ≤ hd.timestamp := (List.pairwise_cons.mp hsorted).1 r h2
        have hlt := hmax hd hs
        exact absurd (lt_of_le_of_lt hle hlt) (lt_irrefl _)
    · exact List.mem_singleton.mp hr
  rw [hL, hhd]
  rfl

/-- C7 counterexample: `recB` is appended after `recA` with an equal
timestamp. The stable sort keeps equal keys in insertion order even with
`reverse=True`, so `list(limit=1)` returns the EARLIER `recA`, not the
just-appended `recB` — ties are NOT in reverse insertion order, and the
appended record is not returned. -/
theorem C7_counterexample_tie_insertion_order :
    get_evaluations [recA, recB] 1 none = [recA] ∧ recA ≠ recB :=
  ⟨by decide, by decide⟩

/-- C7 amended: `get_evaluations` returns the first `limit` records of the
timestamp-descending sort, whose ties keep INSERTION order (Python's sort is
stable and `reverse=True` does not reverse equal keys); consequently
`append` followed by `list(limit=1)` returns the new record whenever its
timestamp is strictly greater than every stored timestamp — but not
necessarily when an earlier record shares its timestamp. -/
theorem C7_amended_list_ordering :
    (∀ (store : List EvaluationRecord) (limit : ℕ) (uc : Option String),
        (get_evaluations store limit uc).Pairwise
          (fun a b => b.timestamp ≤ a.timestamp))
    ∧ (∀ (store : List EvaluationRecord) (t : ℕ),
        (pySortByTimestampDesc store).filter (fun e => e.timestamp == t)
          = store.filter (fun e => e.timestamp == t))
    ∧ (∀ (store : List EvaluationRecord) (r : EvaluationRecord),
        (∀ e ∈ store, e.timestamp < r.timestamp) →
          get_evaluations (store ++ [r]) 1 none = [r]) := by
  refine ⟨?_, ?_, ?_⟩
  · intro store limit uc
    unfold get_evaluations
    exact List.Pairwise.sublist (List.take_sublist _ _)
      (pySortByTimestampDesc_sorted _)
  · intro store t
    exact pySortByTimestampDesc_stable t store
  · exact get_evaluations_append_fresh

/-- Witness for the amended C7: appending `recC` (timestamp 200) after
`recA` (timestamp 100) makes `list(limit=1)` return `recC` alone. -/
theorem C7_amended_list_ordering_witness :
    get_evaluations ([recA] ++ [recC]) 1 none = [recC] :=
  C7_amended_list_ordering.2.2 [recA] recC (by decide)

theorem collectMetric_eq_flatScores (m : String) :
    ∀ store : List EvaluationRecord, collectMetric store m = flatScores store m
  | [] => rfl
  | ev :: evs => by
    rw [collectMetric, flatScores]
    rw [List.flatMap_cons, List.flatMap_cons, List.filter_append, List.map_append]
    have ih := collectMetric_eq_flatScores m evs
    rw [collectMetric, flatScores] at ih
    rw [ih]

/-- C8: aggregation over the empty store returns all four means `0.0`,
`total_evaluations = 0` and an empty `by_use_case` mapping; the empty-store
branch performs no division at all. -/
theorem C8_empty_store_aggregate :
    get_aggregate_metrics [] = AggregateMetrics.mk 0 0 0 0 0 [] := rfl

/-- C9: every record built by `evaluate_rag` carries exactly four score
entries with metrics answer_relevance, context_relevance, groundedness,
coherence in that order; the record is appended to the store in every case;
and a faulting judge still yields its entry, with score `0.0` and the error
text in `details`. -/
theorem C9_record_shape (p : FeedbackProvider) (query : String)
    (ctxs : List String) (resp : String) (gt : Option String)
    (uc aid eid : String) (ts : ℕ) (store : List EvaluationRecord) :
    ((evaluate_rag p query ctxs resp gt uc aid eid ts store).1.scores.map
        (fun s => s.metric))
      = ["answer_relevance", "context_relevance", "groundedness", "coherence"]
    ∧ (evaluate_rag p query ctxs resp gt uc aid eid ts store).2
        = store ++ [(evaluate_rag p query ctxs resp gt uc aid eid ts store).1]
    ∧ (∀ e, p.relevance = Except.error e →
        (evaluate_rag p query ctxs resp gt uc aid eid ts store).1.scores[0]?
          = some (ScoreEntry.mk "answer_relevance" 0 (some e)))
    ∧ (∀ e, ctxLoop p.context_relevance (ctxs.take 5) = Except.error e →
        (evaluate_rag p query ctxs resp gt uc aid eid ts store).1.scores[1]?
          = some (ScoreEntry.mk "context_relevance" 0 (some e)))
    ∧ (∀ e, p.groundedness = Except.error e →
        (evaluate_rag p query ctxs resp gt uc aid eid ts store).1.scores[2]?
          = some (ScoreEntry.mk "groundedness" 0 (some e)))
    ∧ (∀ e, p.coherence = Except.error e →
        (evaluate_rag p query ctxs resp gt uc aid eid ts store).1.scores[3]?
          = some (ScoreEntry.mk "coherence" 0 (some e))) := by
  refine ⟨?_, rfl, ?_, ?_, ?_, ?_⟩
  · rcases h1 : p.relevance with e1 | v1 <;>
      rcases h2 : ctxLoop p.context_relevance (ctxs.take 5) with e2 | v2 <;>
      rcases h3 : p.groundedness with e3 | v3 <;>
      rcases h4 : p.coherence with e4 | v4 <;>
      simp [evaluate_rag, h1, h2, h3, h4]
  · intro e h
    simp [evaluate_rag, h]
  · intro e h
    simp [evaluate_rag, h]
  · intro e h
    simp [evaluate_rag, h]
  · intro e h
    simp [evaluate_rag, h]

/-- Witness for C9 with every judge faulting: the context-relevance entry is
present with score 0 and the error text. -/
theorem C9_record_shape_witness :
    (evaluate_rag provAllFault "q" ["c1"] "resp" none "general" "agent"
        "EVAL-1" 100 []).1.scores[1]?
      = some (ScoreEntry.mk "context_relevance" 0 (some "judge down")) :=
  (C9_record_shape provAllFault "q" ["c1"] "resp" none "general" "agent"
    "EVAL-1" 100 []).2.2.2.1 "judge down" rfl

/-- C10: on a non-empty store each of the four global aggregates is the
arithmetic mean of that metric's scores rounded to 4 decimal places — not
the raw mean — each per-use-case aggregate likewise, and each per-use-case
`count` is the number of answer_relevance score entries collected for that
use case; on the store holding one record with answer_relevance `1/3` the
returned value is `0.3333`, which differs from the raw mean `1/3`. -/
theorem C10_aggregate_rounded :
    (∀ store : List EvaluationRecord, store ≠ [] →
        (get_aggregate_metrics store).answer_relevance
            = pyRound4 (avgQ (flatScores store "answer_relevance"))
          ∧ (get_aggregate_metrics store).context_precision
            = pyRound4 (avgQ (flatScores store "context_relevance"))
          ∧ (get_aggregate_metrics store).groundedness
            = pyRound4 (avgQ (flatScores store "groundedness"))
          ∧ (get_aggregate_metrics store).faithfulness
            = pyRound4 (avgQ (flatScores store "coherence")))
    ∧ (∀ (store : List EvaluationRecord) (entry : String × UseCaseMetrics),
        entry ∈ (get_aggregate_metrics store).by_use_case →
          entry.2.count
              = ((store.filter (fun ev => ev.use_case == entry.1)).flatMap
                  (fun ev => ev.scores)).countP
                  (fun s => s.metric == "answer_relevance")
            ∧ entry.2.answer_relevance
              = pyRound4 (avgQ (flatScores
                  (store.filter (fun ev => ev.use_case == entry.1))
                  "answer_relevance"))
            ∧ entry.2.context_precision
              = pyRound4 (avgQ (flatScores
                  (store.filter (fun ev => ev.use_case == entry.1))
                  "context_relevance"))
            ∧ entry.2.groundedness
              = pyRound4 (avgQ (flatScores
                  (store.filter (fun ev => ev.use_case == entry.1))
                  "groundedness"))
            ∧ entry.2.faithfulness
              = pyRound4 (avgQ (flatScores
                  (store.filter (fun ev => ev.use_case == entry.1))
                  "coherence")))
    ∧ (get_aggregate_metrics [recThird]).answer_relevance = 3333 / 10000
    ∧ avgQ (flatScores [recThird] "answer_relevance") = 1 / 3
    ∧ (3333 / 10000 : ℚ) ≠ 1 / 3 := by
  refine ⟨?_, ?_, ?_, ?_, by norm_num⟩
  · intro store h
    rw [get_aggregate_metrics, if_neg h]
    refine ⟨?_, ?_, ?_, ?_⟩
    · show pyRound4 (avgQ (collectMetric store "answer_relevance")) = _
      rw [collectMetric_eq_flatScores]
    · show pyRound4 (avgQ (collectMetric store "context_relevance")) = _
      rw [collectMetric_eq_flatScores]
    · show pyRound4 (avgQ (collectMetric store "groundedness")) = _
      rw [collectMetric_eq_flatScores]
    · show pyRound4 (avgQ (collectMetric store "coherence")) = _
      rw [collectMetric_eq_flatScores]
  · intro store entry hmem
    rw [get_aggregate_metrics] at hmem
    split at hmem
    · simp at hmem
    · simp only [List.mem_map] at hmem
      obtain ⟨uc, huc, hentry⟩ := hmem
      subst hentry
      refine ⟨?_, ?_, ?_, ?_, ?_⟩
      · show (collectMetric (store.filter (fun ev => ev.use_case == uc))
            "answer_relevance").length = _
        rw [collectMetric_eq_flatScores, flatScores, List.length_map,
          List.countP_eq_length_filter]
      · show pyRound4 (avgQ (collectMetric
            (store.filter (fun ev => ev.use_case == uc)) "answer_relevance")) = _
        rw [collectMetric_eq_flatScores]
      · show pyRound4 (avgQ (collectMetric
            (store.filter (fun ev => ev.use_case == uc)) "context_relevance")) = _
        rw [collectMetric_eq_flatScores]
      · show pyRound4 (avgQ (collectMetric
            (store.filter (fun ev => ev.use_case == uc)) "groundedness")) = _
        rw [collectMetric_eq_flatScores]
      · show pyRound4 (avgQ (collectMetric
            (store.filter (fun ev => ev.use_case == uc)) "coherence")) = _
        rw [collectMetric_eq_flatScores]
  · have hcoll : collectMetric [recThird] "answer_relevance" = [1/3] := by
      simp [collectMetric, recThird]
    rw [get_aggregate_metrics, if_neg (by simp)]
    show pyRound4 (avgQ (collectMetric [recThird] "answer_relevance")) = _
    rw [hcoll, avgQ, if_neg (by simp)]
    norm_num [pyRound4]
  · have h : flatScores [recThird] "answer_relevance" = [1/3] := by
      simp [flatScores, recThird]
    rw [h, avgQ, if_neg (by simp)]
    norm_num

/-- Witness for C10 at the one-record store: the stored aggregate equals the
rounded mean. -/
theorem C10_aggregate_rounded_witness :
    (get_aggregate_metrics [recThird]).answer_relevance
      = pyRound4 (avgQ (flatScores [recThird] "answer_relevance")) :=
  (C10_aggregate_rounded.1 [recThird] (by simp)).1
